import Mathlib

/-!
Verification of the filtered-primes repository.

The repository consists of:
* `include/cave-error.h` and `cave-bedrock.h` — the error enumeration and the
  declaration (with documented contracts) of the Cave Bedrock vector type
  `CaveVec` and its operations.  The implementation file of the Cave library is
  not part of this repository, so the vector operations are modelled from the
  documented contracts in the header and the specification.
* `main.c` (shown in the readme) — the prime-search consumer:
  `check_if_prime`, the 1.5x ratio filter, and `fprint_vec_of_uint64`.
  These are embedded directly from the source.

Machine integers: the program runs only on 64-bit systems (`UINTPTR_MAX ==
UINT64_MAX` guard), so `uint64_t`/`size_t` arithmetic is modelled on `Nat`
with explicit reduction modulo `2 ^ 64` exactly where the C code can overflow
(the product `prime_i * prime_i` in `check_if_prime`).
-/

instance {ε α : Type} [DecidableEq ε] [DecidableEq α] : DecidableEq (Except ε α) :=
  fun a b =>
  match a, b with
  | Except.ok x, Except.ok y =>
    if h : x = y then isTrue (by rw [h]) else isFalse (by intro hc; cases hc; exact h rfl)
  | Except.ok _, Except.error _ => isFalse (by intro hc; cases hc)
  | Except.error _, Except.ok _ => isFalse (by intro hc; cases hc)
  | Except.error x, Except.error y =>
    if h : x = y then isTrue (by rw [h]) else isFalse (by intro hc; cases hc; exact h rfl)

/-- The error enumeration from `include/cave-error.h` (`CaveError`). -/
inductive CaveError where
  | noError
  | fileError
  | dataError
  | indexError
  | insufficientMemoryError
  | unknownError
deriving DecidableEq, Repr

/-- `CAVE_VEC_GROW_FACTOR` from cave-bedrock.h: the factor by which a vector's
allocation is grown every time it is grown. -/
def CAVE_VEC_GROW_FACTOR : Nat := 2

/-- `CAVE_VEC_DEFAULT_CAPACITY` from cave-bedrock.h: the default capacity for
initializing a vector. -/
def CAVE_VEC_DEFAULT_CAPACITY : Nat := 256

/-- Model of the `CaveVec` struct from cave-bedrock.h.  The C struct stores a
raw byte buffer `data` together with a runtime element width `stride`, a
`capacity` and a length `len`.  We model the buffer as a Lean list of elements
of a type `α` (one list entry per `stride`-byte element); `len` is the length
of that list, and `stride` and `capacity` are kept as bookkeeping fields. -/
structure CaveVec (α : Type) where
  stride : Nat
  capacity : Nat
  data : List α
deriving DecidableEq, Repr

/-- `v->len` of the model. -/
def CaveVec.len (v : CaveVec α) : Nat := v.data.length

/-- Modelled from the spec: the implementation of `cave_vec_init` is not in the
repository (only its declaration and doc comment in cave-bedrock.h).  Behavior
follows the documented contract: fails with `CAVE_DATA_ERROR` if `v` is NULL
(modelled by `v_present = false`) or `element_size` is zero; an
`initial_capacity` of 0 is replaced by `CAVE_VEC_DEFAULT_CAPACITY`; fails with
`CAVE_INSUFFICIENT_MEMORY_ERROR` if malloc does not succeed (allocation success
is modelled by the oracle `alloc`, applied to the requested byte count).  On
success the vector has the requested stride, the computed capacity and no
elements; on failure no vector is produced (the target is left
uninitialized). -/
def cave_vec_init (α : Type) (v_present : Bool) (element_size initial_capacity : Nat)
    (alloc : Nat → Bool) : Except CaveError (CaveVec α) :=
  if v_present = false ∨ element_size = 0 then
    Except.error CaveError.dataError
  else if alloc ((if initial_capacity = 0 then CAVE_VEC_DEFAULT_CAPACITY
      else initial_capacity) * element_size) then
    Except.ok ⟨element_size,
      (if initial_capacity = 0 then CAVE_VEC_DEFAULT_CAPACITY else initial_capacity), []⟩
  else
    Except.error CaveError.insufficientMemoryError

/-- Modelled from the spec: the implementation of `cave_vec_reserve` is not in
the repository (only its declaration and doc comment in cave-bedrock.h).
Behavior follows the documented contract: fails with `CAVE_DATA_ERROR` if
`capacity` is less than `v->len`; otherwise reallocates to the requested
capacity, failing with `CAVE_INSUFFICIENT_MEMORY_ERROR` (and leaving the
original buffer valid and unchanged) if the reallocation fails.  The third
component of the result models the returned pointer: `true` for `v`, `false`
for the NULL returned on error. -/
def cave_vec_reserve (v : CaveVec α) (capacity : Nat) (alloc : Nat → Bool) :
    CaveError × CaveVec α × Bool :=
  if capacity < v.len then
    (CaveError.dataError, v, false)
  else if alloc (capacity * v.stride) then
    (CaveError.noError, { v with capacity := capacity }, true)
  else
    (CaveError.insufficientMemoryError, v, false)

/-- Modelled from the spec: the implementation of `cave_vec_push` is not in the
repository (only its declaration and doc comment in cave-bedrock.h).  Behavior
follows the documented contract: copies the element onto the end of the data,
increasing `len` by 1; if `len == capacity` the capacity is first grown by
`CAVE_VEC_GROW_FACTOR`, and if that reallocation fails the push fails with
`CAVE_INSUFFICIENT_MEMORY_ERROR`, the element is not appended and the previous
contents are untouched.  The third component models the returned pointer. -/
def cave_vec_push (v : CaveVec α) (element : α) (alloc : Nat → Bool) :
    CaveError × CaveVec α × Bool :=
  if v.len = v.capacity then
    let newCap := v.capacity * CAVE_VEC_GROW_FACTOR
    if alloc (newCap * v.stride) then
      (CaveError.noError, ⟨v.stride, newCap, v.data ++ [element]⟩, true)
    else
      (CaveError.insufficientMemoryError, v, false)
  else
    (CaveError.noError, { v with data := v.data ++ [element] }, true)

/-- Modelled from the spec: the implementation of `cave_vec_at` is not in the
repository (only its declaration and doc comment in cave-bedrock.h).  Behavior
follows the documented contract: bounds-checked access, returning the element
at `index` (`v->data + v->stride * index`), or failing with `CAVE_INDEX_ERROR`
if `index` is greater than `v->len - 1`. -/
def cave_vec_at (v : CaveVec α) (index : Nat) : Except CaveError α :=
  if h : index < v.data.length then
    Except.ok (v.data.get ⟨index, h⟩)
  else
    Except.error CaveError.indexError

/-- A sequence of `cave_vec_push` calls, one per element of `xs` in order,
stopping at the first push that fails (as the consumer's `check_error` would).
This is the shape of every push loop in main.c. -/
def cave_vec_push_all (v : CaveVec α) (xs : List α) (alloc : Nat → Bool) :
    CaveError × CaveVec α :=
  match xs with
  | [] => (CaveError.noError, v)
  | x :: rest =>
    let r := cave_vec_push v x alloc
    if r.1 = CaveError.noError then
      cave_vec_push_all r.2.1 rest alloc
    else
      (r.1, r.2.1)

/-- The error/state projection of a closure invocation: every Cave closure
receives the closure data and an error out-argument; `closure_step` forgets the
closure's primary output (the mutated element, the keep decision, or the mapped
element) and keeps the error it wrote and the possibly-mutated closure data. -/
def closure_step {α γ σ : Type} (fn : α → σ → CaveError × γ × σ) :
    α → σ → CaveError × σ :=
  fun x s => ((fn x s).1, (fn x s).2.2)

/-- Number of closure invocations a first-to-last traversal performs: it
advances past an element exactly when the closure wrote `CAVE_NO_ERROR`, and
the invocation that writes an error is the last one performed. -/
def step_count {α σ : Type} (step : α → σ → CaveError × σ) : List α → σ → Nat
  | [], _ => 0
  | x :: rest, s =>
    if (step x s).1 = CaveError.noError then step_count step rest (step x s).2 + 1 else 1

/-- The error reported by a first-to-last traversal: `CAVE_NO_ERROR` when every
invocation succeeds, otherwise the first error a closure invocation writes. -/
def run_error {α σ : Type} (step : α → σ → CaveError × σ) : List α → σ → CaveError
  | [], _ => CaveError.noError
  | x :: rest, s =>
    if (step x s).1 = CaveError.noError then run_error step rest (step x s).2 else (step x s).1

/-- The elements a first-to-last traversal passes to the closure, in the order
they are passed. -/
def visited_list {α σ : Type} (step : α → σ → CaveError × σ) : List α → σ → List α
  | [], _ => []
  | x :: rest, s =>
    if (step x s).1 = CaveError.noError then x :: visited_list step rest (step x s).2 else [x]

/-- The closure data after a first-to-last traversal stops. -/
def final_state {α σ : Type} (step : α → σ → CaveError × σ) : List α → σ → σ
  | [], s => s
  | x :: rest, s =>
    if (step x s).1 = CaveError.noError then final_state step rest (step x s).2 else (step x s).2

/-- Modelled from the spec: iteration core of `cave_vec_foreach` (whose
implementation is not in the repository; only its declaration and doc comment
in cave-bedrock.h).  The closure is applied in place to every element from
first to last; if an invocation writes a non-success error, iteration stops
immediately — the element at the failure point keeps whatever the closure
wrote into it, and the elements not yet visited are untouched. -/
def foreach_run {α σ : Type} (fn : α → σ → CaveError × α × σ) :
    List α → σ → CaveError × List α × σ
  | [], s => (CaveError.noError, [], s)
  | x :: rest, s =>
    if (fn x s).1 = CaveError.noError then
      ((foreach_run fn rest (fn x s).2.2).1,
       (fn x s).2.1 :: (foreach_run fn rest (fn x s).2.2).2.1,
       (foreach_run fn rest (fn x s).2.2).2.2)
    else
      ((fn x s).1, (fn x s).2.1 :: rest, (fn x s).2.2)

/-- The post-processing states of the elements a `foreach` traversal visited
(the closure's output for each invocation performed, in order). -/
def foreach_out {α σ : Type} (fn : α → σ → CaveError × α × σ) : List α → σ → List α
  | [], _ => []
  | x :: rest, s =>
    if (fn x s).1 = CaveError.noError then
      (fn x s).2.1 :: foreach_out fn rest (fn x s).2.2
    else
      [(fn x s).2.1]

/-- Modelled from the spec: `cave_vec_foreach` from cave-bedrock.h.  The last
component models the returned pointer: `v` (true) on success, NULL (false)
when an error is reported. -/
def cave_vec_foreach {α σ : Type} (v : CaveVec α) (fn : α → σ → CaveError × α × σ)
    (closure_data : σ) : CaveError × CaveVec α × σ × Bool :=
  ((foreach_run fn v.data closure_data).1,
   { v with data := (foreach_run fn v.data closure_data).2.1 },
   (foreach_run fn v.data closure_data).2.2,
   decide ((foreach_run fn v.data closure_data).1 = CaveError.noError))

/-- Modelled from the spec: iteration core of `cave_vec_filter` (whose
implementation is not in the repository; only its declaration and doc comment
in cave-bedrock.h).  Elements for which the closure returns false are
compacted out in place, preserving the relative order of kept elements; if an
invocation writes a non-success error, iteration stops immediately and the
already-compacted elements keep their compacted positions, with the failure
element and the unvisited tail left as they were. -/
def filter_run {α σ : Type} (fn : α → σ → CaveError × Bool × σ) :
    List α → σ → CaveError × List α × σ
  | [], s => (CaveError.noError, [], s)
  | x :: rest, s =>
    if (fn x s).1 = CaveError.noError then
      ((filter_run fn rest (fn x s).2.2).1,
       (if (fn x s).2.1 then x :: (filter_run fn rest (fn x s).2.2).2.1
        else (filter_run fn rest (fn x s).2.2).2.1),
       (filter_run fn rest (fn x s).2.2).2.2)
    else
      ((fn x s).1, x :: rest, (fn x s).2.2)

/-- The compacted form of the elements a `filter` traversal visited: the kept
visited elements in order, with the failure element (if any) still present. -/
def filter_out {α σ : Type} (fn : α → σ → CaveError × Bool × σ) : List α → σ → List α
  | [], _ => []
  | x :: rest, s =>
    if (fn x s).1 = CaveError.noError then
      (if (fn x s).2.1 then x :: filter_out fn rest (fn x s).2.2
       else filter_out fn rest (fn x s).2.2)
    else
      [x]

/-- Modelled from the spec: `cave_vec_filter` from cave-bedrock.h.  The last
component models the returned pointer. -/
def cave_vec_filter {α σ : Type} (v : CaveVec α) (fn : α → σ → CaveError × Bool × σ)
    (closure_data : σ) : CaveError × CaveVec α × σ × Bool :=
  ((filter_run fn v.data closure_data).1,
   { v with data := (filter_run fn v.data closure_data).2.1 },
   (filter_run fn v.data closure_data).2.2,
   decide ((filter_run fn v.data closure_data).1 = CaveError.noError))

/-- Modelled from the spec: iteration core of `cave_vec_map` (whose
implementation is not in the repository; only its declaration and doc comment
in cave-bedrock.h).  One output element per visited source element, in order;
if an invocation writes a non-success error, iteration stops immediately and
the outputs already produced are kept. -/
def map_run {α β σ : Type} (fn : α → σ → CaveError × β × σ) :
    List α → σ → CaveError × List β × σ
  | [], s => (CaveError.noError, [], s)
  | x :: rest, s =>
    if (fn x s).1 = CaveError.noError then
      ((map_run fn rest (fn x s).2.2).1,
       (fn x s).2.1 :: (map_run fn rest (fn x s).2.2).2.1,
       (map_run fn rest (fn x s).2.2).2.2)
    else
      ((fn x s).1, [(fn x s).2.1], (fn x s).2.2)

/-- The outputs a `map` traversal wrote, in order (one per invocation). -/
def map_out {α β σ : Type} (fn : α → σ → CaveError × β × σ) : List α → σ → List β
  | [], _ => []
  | x :: rest, s =>
    if (fn x s).1 = CaveError.noError then
      (fn x s).2.1 :: map_out fn rest (fn x s).2.2
    else
      [(fn x s).2.1]

/-- Modelled from the spec: `cave_vec_map` from cave-bedrock.h.  The
destination must be uninitialized; it is initialized with element width
`output_stride` (its capacity modelled as `cave_vec_init` would compute it for
an initial capacity of `src->len`) and filled with one output per visited
source element.  The last component models the returned pointer. -/
def cave_vec_map {α β σ : Type} (src : CaveVec α) (output_stride : Nat)
    (fn : α → σ → CaveError × β × σ) (closure_data : σ) :
    CaveError × CaveVec β × σ × Bool :=
  ((map_run fn src.data closure_data).1,
   ⟨output_stride,
    (if src.data.length = 0 then CAVE_VEC_DEFAULT_CAPACITY else src.data.length),
    (map_run fn src.data closure_data).2.1⟩,
   (map_run fn src.data closure_data).2.2,
   decide ((map_run fn src.data closure_data).1 = CaveError.noError))

/-- The ratio-filter loop from main.c (the `for` loop over `primes` building
`filtered_primes`): for each current prime, push it and update `prev_prime`
exactly when `(double)curr_prime > 1.5 * (double)prev_prime`.  Every value the
program feeds through this comparison is below `2^34` (primes below
12884901888), so the conversions to `double` and the product
`1.5 * (double)prev` are all exact in IEEE double precision (they need at most
36 significand bits), and the comparison is exactly the rational comparison
`curr > (3/2) * prev`, i.e. `3 * prev < 2 * curr`, which is how it is
embedded. -/
def ratio_filter_go (prev : Nat) : List Nat → List Nat
  | [] => []
  | curr :: rest =>
    if 3 * prev < 2 * curr then curr :: ratio_filter_go curr rest
    else ratio_filter_go prev rest

/-- main.c's construction of `filtered_primes`: the literal 2 is pushed
unconditionally, then the loop runs over the whole primes list with
`prev_prime` starting at 2. -/
def filtered_primes_of (primes : List Nat) : List Nat :=
  2 :: ratio_filter_go 2 primes

/-- The keep rule written from the spec's words, for comparison with the code:
the traversal keeps a later element exactly when it is strictly greater than
1.5 times the last kept element. -/
def spec_ratio_go (lastKept : Nat) : List Nat → List Nat
  | [] => []
  | c :: rest =>
    if 3 * lastKept < 2 * c then c :: spec_ratio_go c rest
    else spec_ratio_go lastKept rest

/-- The full filter rule written from the spec's words: always keep the first
element, then keep a later element exactly when it is strictly greater than
1.5 times the last kept element. -/
def spec_ratio_filter : List Nat → List Nat
  | [] => []
  | x :: rest => x :: spec_ratio_go x rest

/-- The per-element loop of `fprint_vec_of_uint64` in main.c: each element is
printed with the format string `"%" PRIu64 " , "`, i.e. its decimal digits
followed by space-comma-space (also after the last element). -/
def fprint_loop : List Nat → String
  | [] => ""
  | x :: rest => Nat.repr x ++ " , " ++ fprint_loop rest

/-- `fprint_vec_of_uint64` from main.c: the element loop followed by one
newline.  `main` writes exactly this text for the `filtered_primes` vector,
both to stdout and to the out.txt file (the same function is called for both
streams). -/
def fprint_vec_of_uint64 (v : List Nat) : String :=
  fprint_loop v ++ "\n"

/-- Joining strings with a separator placed between consecutive elements only
(used to state the spec's words and the amended format). -/
def sep_join (sep : String) : List String → String
  | [] => ""
  | [a] => a
  | a :: b :: rest => a ++ sep ++ sep_join sep (b :: rest)

/-- The output text as the claim's words state it: one decimal integer list,
comma-space separated, with a trailing newline. -/
def spec_comma_space_text (v : List Nat) : String :=
  sep_join ", " (v.map Nat.repr) ++ "\n"

/-- The modulus of `uint64_t` arithmetic (the program only builds on targets
where `size_t` is 64 bits, per the preprocessor guard in main.c). -/
def U64_MOD : Nat := 2 ^ 64

/-- `check_if_prime` from main.c: walks `prior_primes` from first to last; for
each prime it first tests `prime_i * prime_i > num` (returning true — the
square of the current prime exceeds `num`, so no further divisors need
checking) and then `num % prime_i == 0` (returning false — a divisor was
found); returns true when the list is exhausted.  The product
`prime_i * prime_i` is `uint64_t` multiplication, so it is reduced modulo
`2^64`. -/
def check_if_prime (num : Nat) : List Nat → Bool
  | [] => true
  | p :: rest =>
    if p * p % U64_MOD > num then true
    else if num % p = 0 then false
    else check_if_prime num rest

/-- The same loop with mathematically exact multiplication (no reduction
modulo `2^64`); used to state that wrap-around never affects the comparison. -/
def check_if_prime_exact (num : Nat) : List Nat → Bool
  | [] => true
  | p :: rest =>
    if p * p > num then true
    else if num % p = 0 then false
    else check_if_prime_exact num rest

/-- The primes whose square the `check_if_prime` loop actually multiplies
before returning: the loop advances past `p` exactly when neither test fires,
and the element on which a test fires is the last one evaluated. -/
def evaluated_primes (num : Nat) : List Nat → List Nat
  | [] => []
  | p :: rest =>
    if p * p % U64_MOD > num then [p]
    else if num % p = 0 then [p]
    else p :: evaluated_primes num rest

lemma cave_vec_push_alloc_true (v : CaveVec α) (x : α) :
    (cave_vec_push v x (fun _ => true)).1 = CaveError.noError ∧
    (cave_vec_push v x (fun _ => true)).2.1.data = v.data ++ [x] := by
  unfold cave_vec_push
  split <;> simp

lemma cave_vec_push_all_alloc_true (xs : List α) : ∀ v : CaveVec α,
    (cave_vec_push_all v xs (fun _ => true)).1 = CaveError.noError ∧
    (cave_vec_push_all v xs (fun _ => true)).2.data = v.data ++ xs := by
  induction xs with
  | nil => intro v; simp [cave_vec_push_all]
  | cons x rest ih =>
    intro v
    obtain ⟨h1, h2⟩ := cave_vec_push_alloc_true v x
    obtain ⟨ih1, ih2⟩ := ih (cave_vec_push v x (fun _ => true)).2.1
    unfold cave_vec_push_all
    simp only [h1, if_pos]
    exact ⟨ih1, by simp [ih2, h2]⟩

lemma cave_vec_init_ok_data (α : Type) (es cap : Nat) (alloc : Nat → Bool)
    (v : CaveVec α) (hinit : cave_vec_init α true es cap alloc = Except.ok v) :
    v.data = [] ∧ v.capacity = (if cap = 0 then CAVE_VEC_DEFAULT_CAPACITY else cap) := by
  by_cases hes : es = 0
  · unfold cave_vec_init at hinit
    rw [if_pos (Or.inr hes)] at hinit
    simp at hinit
  · unfold cave_vec_init at hinit
    rw [if_neg (by simp [hes])] at hinit
    by_cases ha : alloc ((if cap = 0 then CAVE_VEC_DEFAULT_CAPACITY else cap) * es) = true
    · rw [if_pos ha] at hinit
      injection hinit with h
      rw [← h]
      exact ⟨rfl, rfl⟩
    · rw [if_neg ha] at hinit
      simp at hinit

/-- **C1.** For every sequence of elements pushed into a freshly initialized
Array (with succeeding allocations), the pushes succeed, the contents are
exactly the pushed values in order, and bounds-checked access at each index
`i < N` returns the `i`-th pushed value; concretely, initializing an Array of
8-byte elements with capacity 4 and pushing `2,3,5,7,11` yields `len = 5` and
`capacity ≥ 5`, `at(v, 2)` returns `5`, and `at(v, 5)` fails with
`CAVE_INDEX_ERROR`. -/
theorem cave_vec_push_at_roundtrip (α : Type) (es cap : Nat) (v0 : CaveVec α)
    (hinit : cave_vec_init α true es cap (fun _ => true) = Except.ok v0)
    (xs : List α) (i : Nat) (hi : i < xs.length) :
    ((cave_vec_push_all v0 xs (fun _ => true)).1 = CaveError.noError ∧
      (cave_vec_push_all v0 xs (fun _ => true)).2.data = xs ∧
      cave_vec_at (cave_vec_push_all v0 xs (fun _ => true)).2 i = Except.ok (xs.get ⟨i, hi⟩)) ∧
    (cave_vec_init Nat true 8 4 (fun _ => true) = Except.ok ⟨8, 4, []⟩ ∧
      (cave_vec_push_all (⟨8, 4, []⟩ : CaveVec Nat) [2, 3, 5, 7, 11] (fun _ => true)).2.len = 5 ∧
      5 ≤ (cave_vec_push_all (⟨8, 4, []⟩ : CaveVec Nat) [2, 3, 5, 7, 11] (fun _ => true)).2.capacity ∧
      cave_vec_at (cave_vec_push_all (⟨8, 4, []⟩ : CaveVec Nat) [2, 3, 5, 7, 11] (fun _ => true)).2 2
        = Except.ok 5 ∧
      cave_vec_at (cave_vec_push_all (⟨8, 4, []⟩ : CaveVec Nat) [2, 3, 5, 7, 11] (fun _ => true)).2 5
        = Except.error CaveError.indexError) := by
  have hv0 : v0.data = [] := (cave_vec_init_ok_data α es cap _ v0 hinit).1
  obtain ⟨h1, h2⟩ := cave_vec_push_all_alloc_true xs v0
  rw [hv0, List.nil_append] at h2
  refine ⟨⟨h1, h2, ?_⟩, by decide⟩
  have hlen : i < (cave_vec_push_all v0 xs (fun _ => true)).2.data.length := by
    rw [h2]; exact hi
  unfold cave_vec_at
  rw [dif_pos hlen]
  congr 1
  exact List.get_of_eq h2 ⟨i, hlen⟩

theorem cave_vec_push_at_roundtrip_witness :
    (cave_vec_push_all (⟨8, 4, []⟩ : CaveVec Nat) [2, 3, 5, 7, 11] (fun _ => true)).2.data
      = [2, 3, 5, 7, 11] :=
  ((cave_vec_push_at_roundtrip Nat 8 4 ⟨8, 4, []⟩ (by decide) [2, 3, 5, 7, 11] 2
    (by decide)).1).2.1

/-- **C3.** `reserve(v, c)` with `c < len` fails with `CAVE_DATA_ERROR` and
leaves the Array completely unchanged (capacity, length and contents), and
whenever `reserve` fails with `CAVE_INSUFFICIENT_MEMORY_ERROR` the original
vector is likewise unchanged. -/
theorem cave_vec_reserve_failure_preserves (α : Type) (v : CaveVec α) (c : Nat)
    (alloc : Nat → Bool) :
    (c < v.len → cave_vec_reserve v c alloc = (CaveError.dataError, v, false)) ∧
    ((cave_vec_reserve v c alloc).1 = CaveError.insufficientMemoryError →
      (cave_vec_reserve v c alloc).2.1 = v) := by
  constructor
  · intro h
    simp [cave_vec_reserve, h]
  · intro h
    by_cases h1 : c < v.len
    · simp [cave_vec_reserve, h1] at h
    · by_cases h2 : alloc (c * v.stride) = true
      · simp [cave_vec_reserve, h1, h2] at h
      · simp [cave_vec_reserve, h1, h2]

theorem cave_vec_reserve_failure_preserves_witness :
    cave_vec_reserve (⟨8, 4, [1, 2]⟩ : CaveVec Nat) 1 (fun _ => true)
        = (CaveError.dataError, ⟨8, 4, [1, 2]⟩, false) ∧
      (cave_vec_reserve (⟨8, 4, [1]⟩ : CaveVec Nat) 3 (fun _ => false)).2.1 = ⟨8, 4, [1]⟩ :=
  ⟨(cave_vec_reserve_failure_preserves Nat ⟨8, 4, [1, 2]⟩ 1 (fun _ => true)).1 (by decide),
   (cave_vec_reserve_failure_preserves Nat ⟨8, 4, [1]⟩ 3 (fun _ => false)).2 (by decide)⟩

/-- **C4.** A successful `init` yields `len = 0` and `capacity ≥
initial_capacity` (and `capacity ≥ CAVE_VEC_DEFAULT_CAPACITY = 256` when
`initial_capacity = 0`); `init` fails with `CAVE_DATA_ERROR` when the target
struct reference is absent or `element_size = 0`, and with
`CAVE_INSUFFICIENT_MEMORY_ERROR` when the allocation fails — in the failure
cases no initialized vector is produced. -/
theorem cave_vec_init_contract (α : Type) (es cap : Nat) (alloc : Nat → Bool) :
    (∀ v : CaveVec α, cave_vec_init α true es cap alloc = Except.ok v →
        v.len = 0 ∧ cap ≤ v.capacity ∧
          (cap = 0 → CAVE_VEC_DEFAULT_CAPACITY ≤ v.capacity)) ∧
    (es = 0 → cave_vec_init α true es cap alloc = Except.error CaveError.dataError) ∧
    (cave_vec_init α false es cap alloc = Except.error CaveError.dataError) ∧
    (es ≠ 0 → alloc ((if cap = 0 then CAVE_VEC_DEFAULT_CAPACITY else cap) * es) = false →
        cave_vec_init α true es cap alloc = Except.error CaveError.insufficientMemoryError) := by
  refine ⟨?_, ?_, ?_, ?_⟩
  · intro v hv
    obtain ⟨hdata, hcap⟩ := cave_vec_init_ok_data α es cap alloc v hv
    refine ⟨by simp [CaveVec.len, hdata], ?_, ?_⟩
    · rw [hcap]
      by_cases hc : cap = 0
      · simp [hc]
      · simp [hc]
    · intro hc
      rw [hcap, if_pos hc]
  · intro hes
    simp [cave_vec_init, hes]
  · simp [cave_vec_init]
  · intro hes halloc
    unfold cave_vec_init
    rw [if_neg (by simp [hes]), if_neg (by rw [halloc]; simp)]

lemma visited_list_take {α σ : Type} (step : α → σ → CaveError × σ) :
    ∀ (l : List α) (s : σ),
      visited_list step l s = l.take (step_count step l s) ∧
      step_count step l s ≤ l.length := by
  intro l
  induction l with
  | nil => intro s; exact ⟨rfl, Nat.le_refl 0⟩
  | cons x rest ih =>
    intro s
    by_cases h : (step x s).1 = CaveError.noError
    · obtain ⟨ih1, ih2⟩ := ih (step x s).2
      constructor
      · simp [visited_list, step_count, h, ih1]
      · simp only [step_count, h, if_pos, List.length_cons]
        exact Nat.succ_le_succ ih2
    · constructor <;> simp [visited_list, step_count, h]

lemma foreach_run_characterization {α σ : Type} (fn : α → σ → CaveError × α × σ) :
    ∀ (l : List α) (s : σ),
      foreach_run fn l s =
        (run_error (closure_step fn) l s,
         foreach_out fn l s ++ l.drop (step_count (closure_step fn) l s),
         final_state (closure_step fn) l s) := by
  intro l
  induction l with
  | nil => intro s; rfl
  | cons x rest ih =>
    intro s
    by_cases h : (fn x s).1 = CaveError.noError
    · simp [foreach_run, run_error, foreach_out, step_count, final_state, closure_step, h,
        ih (fn x s).2.2]
    · simp [foreach_run, run_error, foreach_out, step_count, final_state, closure_step, h]

lemma filter_run_characterization {α σ : Type} (fn : α → σ → CaveError × Bool × σ) :
    ∀ (l : List α) (s : σ),
      filter_run fn l s =
        (run_error (closure_step fn) l s,
         filter_out fn l s ++ l.drop (step_count (closure_step fn) l s),
         final_state (closure_step fn) l s) := by
  intro l
  induction l with
  | nil => intro s; rfl
  | cons x rest ih =>
    intro s
    by_cases h : (fn x s).1 = CaveError.noError
    · by_cases hk : (fn x s).2.1 = true
      · simp [filter_run, run_error, filter_out, step_count, final_state, closure_step, h, hk,
          ih (fn x s).2.2]
      · simp [filter_run, run_error, filter_out, step_count, final_state, closure_step, h, hk,
          ih (fn x s).2.2]
    · simp [filter_run, run_error, filter_out, step_count, final_state, closure_step, h]

lemma map_run_characterization {α β σ : Type} (fn : α → σ → CaveError × β × σ) :
    ∀ (l : List α) (s : σ),
      map_run fn l s =
        (run_error (closure_step fn) l s,
         map_out fn l s,
         final_state (closure_step fn) l s) := by
  intro l
  induction l with
  | nil => intro s; rfl
  | cons x rest ih =>
    intro s
    by_cases h : (fn x s).1 = CaveError.noError
    · simp [map_run, run_error, map_out, final_state, closure_step, h, ih (fn x s).2.2]
    · simp [map_run, run_error, map_out, final_state, closure_step, h]

lemma map_out_length {α β σ : Type} (fn : α → σ → CaveError × β × σ) :
    ∀ (l : List α) (s : σ),
      (map_out fn l s).length = step_count (closure_step fn) l s := by
  intro l
  induction l with
  | nil => intro s; rfl
  | cons x rest ih =>
    intro s
    by_cases h : (fn x s).1 = CaveError.noError
    · simp [map_out, step_count, closure_step, h, ih (fn x s).2.2]
    · simp [map_out, step_count, closure_step, h]

/-- **C2.** For every Array and every user closure passed to foreach, filter
or map: the closure is invoked on the elements strictly from first to last
(the visited elements are an initial segment of the data, in order, and the
invocation that writes a non-success error is the last one performed); the
operation reports to its caller exactly the error of the run (the first error
a closure invocation writes, `CAVE_NO_ERROR` if none) and returns the absent
sentinel (NULL, modelled `false`) exactly when that error is non-success; no
rollback is performed — the visited elements keep their post-processing state
(for foreach the closure outputs, for filter the compacted kept elements, for
map the outputs written to the destination) while the unvisited tail of the
data is left untouched. -/
theorem cave_vec_bulk_error_short_circuit {α β σ : Type} (v : CaveVec α) (s : σ)
    (ffn : α → σ → CaveError × α × σ) (gfn : α → σ → CaveError × Bool × σ)
    (mfn : α → σ → CaveError × β × σ) (os : Nat) :
    (∀ (γ : Type) (fn : α → σ → CaveError × γ × σ),
        visited_list (closure_step fn) v.data s
            = v.data.take (step_count (closure_step fn) v.data s) ∧
          step_count (closure_step fn) v.data s ≤ v.data.length) ∧
    cave_vec_foreach v ffn s =
      (run_error (closure_step ffn) v.data s,
       ⟨v.stride, v.capacity,
        foreach_out ffn v.data s ++ v.data.drop (step_count (closure_step ffn) v.data s)⟩,
       final_state (closure_step ffn) v.data s,
       decide (run_error (closure_step ffn) v.data s = CaveError.noError)) ∧
    cave_vec_filter v gfn s =
      (run_error (closure_step gfn) v.data s,
       ⟨v.stride, v.capacity,
        filter_out gfn v.data s ++ v.data.drop (step_count (closure_step gfn) v.data s)⟩,
       final_state (closure_step gfn) v.data s,
       decide (run_error (closure_step gfn) v.data s = CaveError.noError)) ∧
    cave_vec_map v os mfn s =
      (run_error (closure_step mfn) v.data s,
       ⟨os, (if v.data.length = 0 then CAVE_VEC_DEFAULT_CAPACITY else v.data.length),
        map_out mfn v.data s⟩,
       final_state (closure_step mfn) v.data s,
       decide (run_error (closure_step mfn) v.data s = CaveError.noError)) ∧
    (map_out mfn v.data s).length = step_count (closure_step mfn) v.data s := by
  refine ⟨fun γ fn => visited_list_take (closure_step fn) v.data s, ?_, ?_, ?_,
    map_out_length mfn v.data s⟩
  · simp [cave_vec_foreach, foreach_run_characterization ffn v.data s]
  · simp [cave_vec_filter, filter_run_characterization gfn v.data s]
  · simp [cave_vec_map, map_run_characterization mfn v.data s]

lemma filter_run_pure {α σ : Type} (p : α → Bool) :
    ∀ (l : List α) (s : σ),
      filter_run (fun x t => (CaveError.noError, p x, t)) l s
        = (CaveError.noError, l.filter p, s) := by
  intro l
  induction l with
  | nil => intro s; rfl
  | cons x rest ih =>
    intro s
    by_cases hk : p x = true
    · simp [filter_run, List.filter_cons, hk, ih s]
    · simp [filter_run, List.filter_cons, hk, ih s]

/-- **C5.** `filter` with a predicate that always returns true leaves the
Array (contents, length, capacity, stride) unchanged; with a predicate that
always returns false it empties the Array (`len = 0`) while preserving
capacity; and in general, with any pure predicate `p`, it removes exactly the
elements on which `p` is false, preserving the relative order of the kept
elements (the result is `List.filter p`, the stable in-place
partition-and-truncate). -/
theorem cave_vec_filter_pure_spec {α σ : Type} (v : CaveVec α) (s : σ) (p : α → Bool) :
    cave_vec_filter v (fun x t => (CaveError.noError, p x, t)) s
        = (CaveError.noError, ⟨v.stride, v.capacity, v.data.filter p⟩, s, true) ∧
      (cave_vec_filter v (fun _ t => (CaveError.noError, true, t)) s).2.1 = v ∧
      (cave_vec_filter v (fun _ t => (CaveError.noError, false, t)) s).2.1.len = 0 ∧
      (cave_vec_filter v (fun _ t => (CaveError.noError, false, t)) s).2.1.capacity
        = v.capacity := by
  refine ⟨?_, ?_, ?_, ?_⟩
  · simp [cave_vec_filter, filter_run_pure p v.data s]
  · simp [cave_vec_filter, filter_run_pure (fun _ => true) v.data s, CaveVec.len]
  · simp [cave_vec_filter, filter_run_pure (fun _ => false) v.data s, CaveVec.len]
  · simp [cave_vec_filter, filter_run_pure (fun _ => false) v.data s]

lemma map_run_pure {α β σ : Type} (f : α → β) :
    ∀ (l : List α) (s : σ),
      map_run (fun x t => (CaveError.noError, f x, t)) l s
        = (CaveError.noError, l.map f, s) := by
  intro l
  induction l with
  | nil => intro s; rfl
  | cons x rest ih =>
    intro s
    simp [map_run, ih s]

/-- **C6.** `map` of a source Array through a pure transform `f` initializes
the destination with element width `output_stride` and produces a destination
of the same length as the source whose `i`-th element is `f` of the source's
`i`-th element, in order (the destination data is exactly `List.map f` of the
source data). -/
theorem cave_vec_map_pure_spec {α β σ : Type} (src : CaveVec α) (os : Nat)
    (f : α → β) (s : σ) :
    cave_vec_map src os (fun x t => (CaveError.noError, f x, t)) s
        = (CaveError.noError,
           ⟨os, (if src.data.length = 0 then CAVE_VEC_DEFAULT_CAPACITY else src.data.length),
            src.data.map f⟩, s, true) ∧
      (cave_vec_map src os (fun x t => (CaveError.noError, f x, t)) s).2.1.stride = os ∧
      (cave_vec_map src os (fun x t => (CaveError.noError, f x, t)) s).2.1.len = src.len := by
  refine ⟨?_, ?_, ?_⟩
  · simp [cave_vec_map, map_run_pure f src.data s]
  · simp [cave_vec_map]
  · simp [cave_vec_map, map_run_pure f src.data s, CaveVec.len]

lemma ratio_filter_go_eq_spec (l : List Nat) :
    ∀ prev, ratio_filter_go prev l = spec_ratio_go prev l := by
  induction l with
  | nil => intro prev; rfl
  | cons c rest ih =>
    intro prev
    unfold ratio_filter_go spec_ratio_go
    by_cases h : 3 * prev < 2 * c
    · rw [if_pos h, if_pos h, ih c]
    · rw [if_neg h, if_neg h, ih prev]

/-- **C7.** The consumer's ratio filter agrees with the spec's rule "always
keep the first element; keep a later element exactly when it is strictly
greater than 1.5 times the last kept element" on every input starting with 2
(the shape main.c produces, since 2 is the first prime found); concretely, for
the input `[2,5,11,17,29]` all five elements are kept, and inserting 3 between
2 and 5 yields `[2,5,11,17,29]` again — 3 is dropped because 3 is not strictly
greater than 1.5 times 2. -/
theorem consumer_ratio_filter_spec :
    (∀ rest : List Nat, filtered_primes_of (2 :: rest) = spec_ratio_filter (2 :: rest)) ∧
      filtered_primes_of [2, 5, 11, 17, 29] = [2, 5, 11, 17, 29] ∧
      filtered_primes_of [2, 3, 5, 11, 17, 29] = [2, 5, 11, 17, 29] := by
  refine ⟨?_, by decide, by decide⟩
  intro rest
  simp only [filtered_primes_of, spec_ratio_filter]
  rw [ratio_filter_go_eq_spec]
  simp only [spec_ratio_go]
  norm_num

/-- **C8 (counterexample).** The claim as stated is false: for the vector
`[2, 3]` the text the program writes is `"2 , 3 , \n"` (the space-comma-space
delimiter follows every element, the last included), which is not the
comma-space separated list `"2, 3\n"`. -/
theorem fprint_format_counterexample :
    fprint_vec_of_uint64 [2, 3] ≠ spec_comma_space_text [2, 3] := by decide

lemma fprint_loop_eq (v : List Nat) :
    fprint_loop v = sep_join " , " (v.map Nat.repr) ++ (if v = [] then "" else " , ") := by
  induction v with
  | nil => rfl
  | cons x rest ih =>
    cases rest with
    | nil => simp [fprint_loop, sep_join]
    | cons y t =>
      rw [fprint_loop, ih]
      simp [sep_join, String.append_assoc]

/-- **C8 (amended).** The text the prime-search consumer writes (to stdout and
to the output file) for a vector of unsigned 64-bit integers is one decimal
integer list delimited by `" , "` (space, comma, space), the delimiter also
following the last element, with a trailing newline. -/
theorem fprint_format_amended (v : List Nat) :
    fprint_vec_of_uint64 v
      = sep_join " , " (v.map Nat.repr) ++ (if v = [] then "" else " , ") ++ "\n" := by
  unfold fprint_vec_of_uint64
  rw [fprint_loop_eq]

lemma check_if_prime_of_no_divisor (num : Nat) :
    ∀ l : List Nat, (∀ p ∈ l, num % p ≠ 0) → check_if_prime num l = true := by
  intro l
  induction l with
  | nil => intro _; rfl
  | cons p rest ih =>
    intro h
    unfold check_if_prime
    by_cases h1 : p * p % U64_MOD > num
    · rw [if_pos h1]
    · rw [if_neg h1, if_neg (h p (List.mem_cons_self p rest))]
      exact ih (fun q hq => h q (List.mem_cons_of_mem p hq))

lemma check_if_prime_of_divisor (num d : Nat) :
    ∀ l : List Nat, l.Pairwise (· < ·) → d ∈ l →
      d * d % U64_MOD ≤ num → num % d = 0 →
      (∀ q ∈ l, q < d → q * q % U64_MOD ≤ num ∧ num % q ≠ 0) →
      check_if_prime num l = false := by
  intro l
  induction l with
  | nil => intro _ hd; cases hd
  | cons x rest ih =>
    intro hsort hd hdsq hdvd hq
    obtain ⟨hx_lt, hrest_sort⟩ := List.pairwise_cons.mp hsort
    unfold check_if_prime
    by_cases hxd : x = d
    · subst hxd
      rw [if_neg (Nat.not_lt.mpr hdsq), if_pos hdvd]
    · have hd_rest : d ∈ rest := by
        rcases List.mem_cons.mp hd with h | h
        · exact absurd h.symm hxd
        · exact h
      have hx_lt_d : x < d := hx_lt d hd_rest
      obtain ⟨hxsq, hxdvd⟩ := hq x (List.mem_cons_self x rest) hx_lt_d
      rw [if_neg (Nat.not_lt.mpr hxsq), if_neg hxdvd]
      exact ih hrest_sort hd_rest hdsq hdvd
        (fun q hmem hlt => hq q (List.mem_cons_of_mem x hmem) hlt)

/-- **C9.** For every `num ≥ 2` in the `uint64_t` range and the vector
containing exactly the primes below `num` in increasing order,
`check_if_prime(num, prior_primes)` returns true if and only if `num` is
prime.  (This holds even though `prime_i * prime_i` can wrap modulo `2^64`:
for a composite `num` the least prime factor `d` satisfies `d * d ≤ num`, so
no wrap occurs before the divisor test fires, and for a prime `num` no
divisor test ever fires, so every exit returns true.) -/
theorem check_if_prime_correct (num : Nat) (h2 : 2 ≤ num) (hlt : num < U64_MOD)
    (pp : List Nat) (hpp : pp = (List.range num).filter (fun k => decide (Nat.Prime k))) :
    check_if_prime num pp = true ↔ Nat.Prime num := by
  have hmem : ∀ q, q ∈ pp ↔ (q < num ∧ Nat.Prime q) := by
    intro q
    rw [hpp]
    simp [List.mem_filter, List.mem_range]
  have hsort : pp.Pairwise (· < ·) := by
    rw [hpp]
    exact (List.pairwise_lt_range num).filter _
  constructor
  · intro hcheck
    by_contra hnp
    have hd_prime : Nat.Prime num.minFac := Nat.minFac_prime (by omega)
    have hd_dvd : num.minFac ∣ num := Nat.minFac_dvd num
    have hdsq : num.minFac * num.minFac ≤ num := by
      have := Nat.minFac_sq_le_self (by omega : 0 < num) hnp
      rwa [pow_two] at this
    have hd_lt : num.minFac < num := by
      refine Nat.lt_of_le_of_ne (Nat.minFac_le (by omega)) (fun h => hnp ?_)
      exact Nat.prime_def_minFac.mpr ⟨h2, h⟩
    have hmod_le : num.minFac * num.minFac % U64_MOD ≤ num := by
      rw [Nat.mod_eq_of_lt (lt_of_le_of_lt hdsq hlt)]
      exact hdsq
    have hdvd_mod : num % num.minFac = 0 := Nat.mod_eq_zero_of_dvd hd_dvd
    have hq : ∀ q ∈ pp, q < num.minFac → q * q % U64_MOD ≤ num ∧ num % q ≠ 0 := by
      intro q hqmem hqlt
      obtain ⟨hq_lt, hq_prime⟩ := (hmem q).mp hqmem
      have hqsq : q * q ≤ num :=
        le_trans (Nat.mul_le_mul (le_of_lt hqlt) (le_of_lt hqlt)) hdsq
      constructor
      · rw [Nat.mod_eq_of_lt (lt_of_le_of_lt hqsq hlt)]
        exact hqsq
      · intro hmod
        have hle : num.minFac ≤ q :=
          Nat.minFac_le_of_dvd hq_prime.two_le (Nat.dvd_of_mod_eq_zero hmod)
        omega
    have hfalse := check_if_prime_of_divisor num num.minFac pp hsort
      ((hmem _).mpr ⟨hd_lt, hd_prime⟩) hmod_le hdvd_mod hq
    rw [hfalse] at hcheck
    cases hcheck
  · intro hnum
    refine check_if_prime_of_no_divisor num pp (fun p hp hmod => ?_)
    obtain ⟨hp_lt, hp_prime⟩ := (hmem p).mp hp
    have hdvd : p ∣ num := Nat.dvd_of_mod_eq_zero hmod
    rcases hnum.eq_one_or_self_of_dvd p hdvd with h | h
    · have := hp_prime.two_le
      omega
    · omega

theorem check_if_prime_correct_witness : check_if_prime 7 [2, 3, 5] = true :=
  (check_if_prime_correct 7 (by decide) (by decide) [2, 3, 5] (by decide)).mpr (by norm_num)

lemma evaluated_primes_subset (num : Nat) :
    ∀ l : List Nat, ∀ p ∈ evaluated_primes num l, p ∈ l := by
  intro l
  induction l with
  | nil => intro p hp; cases hp
  | cons x rest ih =>
    intro p hp
    unfold evaluated_primes at hp
    by_cases h1 : x * x % U64_MOD > num
    · rw [if_pos h1] at hp
      rw [List.mem_singleton.mp hp]
      exact List.mem_cons_self x rest
    · rw [if_neg h1] at hp
      by_cases h2 : num % x = 0
      · rw [if_pos h2] at hp
        rw [List.mem_singleton.mp hp]
        exact List.mem_cons_self x rest
      · rw [if_neg h2] at hp
        rcases List.mem_cons.mp hp with h | h
        · rw [h]; exact List.mem_cons_self x rest
        · exact List.mem_cons_of_mem x (ih p h)

lemma evaluated_primes_le_stop (num s : Nat) (hs_sq_lt : s * s < U64_MOD)
    (hs_sq_gt : num < s * s) :
    ∀ l : List Nat, l.Pairwise (· < ·) → s ∈ l →
      ∀ p ∈ evaluated_primes num l, p ≤ s := by
  intro l
  induction l with
  | nil => intro _ hs; cases hs
  | cons x rest ih =>
    intro hsort hs p hp
    obtain ⟨hx_lt, hrest_sort⟩ := List.pairwise_cons.mp hsort
    have hxs : x ≤ s := by
      rcases List.mem_cons.mp hs with h | h
      · omega
      · exact le_of_lt (hx_lt s h)
    unfold evaluated_primes at hp
    by_cases h1 : x * x % U64_MOD > num
    · rw [if_pos h1] at hp
      rw [List.mem_singleton.mp hp]
      exact hxs
    · rw [if_neg h1] at hp
      by_cases h2 : num % x = 0
      · rw [if_pos h2] at hp
        rw [List.mem_singleton.mp hp]
        exact hxs
      · rw [if_neg h2] at hp
        rcases List.mem_cons.mp hp with h | h
        · rw [h]; exact hxs
        · have hsx : s ≠ x := by
            intro he
            subst he
            exact h1 (by rw [Nat.mod_eq_of_lt hs_sq_lt]; exact hs_sq_gt)
          have hs_rest : s ∈ rest := by
            rcases List.mem_cons.mp hs with hh | hh
            · exact absurd hh hsx
            · exact hh
          exact ih hrest_sort hs_rest p h

lemma mem_evaluated_primes_head (num x : Nat) (rest : List Nat) :
    x ∈ evaluated_primes num (x :: rest) := by
  unfold evaluated_primes
  by_cases h1 : x * x % U64_MOD > num
  · rw [if_pos h1]
    exact List.mem_singleton.mpr rfl
  · rw [if_neg h1]
    by_cases h2 : num % x = 0
    · rw [if_pos h2]
      exact List.mem_singleton.mpr rfl
    · rw [if_neg h2]
      exact List.mem_cons_self x _

lemma check_eq_exact_of_no_overflow (num : Nat) :
    ∀ l : List Nat, (∀ p ∈ evaluated_primes num l, p * p < U64_MOD) →
      check_if_prime num l = check_if_prime_exact num l := by
  intro l
  induction l with
  | nil => intro _; rfl
  | cons x rest ih =>
    intro h
    have hx : x * x < U64_MOD := h x (mem_evaluated_primes_head num x rest)
    have hmod : x * x % U64_MOD = x * x := Nat.mod_eq_of_lt hx
    unfold check_if_prime check_if_prime_exact
    rw [hmod]
    by_cases h1 : x * x > num
    · rw [if_pos h1, if_pos h1]
    · rw [if_neg h1, if_neg h1]
      by_cases h2 : num % x = 0
      · rw [if_pos h2, if_pos h2]
      · rw [if_neg h2, if_neg h2]
        refine ih (fun p hp => h p ?_)
        unfold evaluated_primes
        rw [if_neg (by rw [hmod]; exact h1), if_neg h2]
        exact List.mem_cons_of_mem x hp

/-- **C10.** For every `num` with `2 ≤ num < 12884901888` (main.c's
`upperbound`) and the vector containing exactly the primes below `num` in
increasing order, every product `prime_i * prime_i` the `check_if_prime` loop
evaluates before returning stays below `2^64`, so the `uint64_t` wrap-around
never affects the comparison `prime_i * prime_i > num`: the loop computes the
same answer as with mathematically exact multiplication.  (Reason: the primes
traversed before the loop returns never pass 113513, a prime whose square
12885201169 already exceeds every `num` below 12884901888.) -/
theorem check_if_prime_no_overflow (num : Nat) (h2 : 2 ≤ num) (hub : num < 12884901888)
    (pp : List Nat) (hpp : pp = (List.range num).filter (fun k => decide (Nat.Prime k))) :
    (∀ p ∈ evaluated_primes num pp, p * p < U64_MOD) ∧
      check_if_prime num pp = check_if_prime_exact num pp := by
  have hmem : ∀ q, q ∈ pp ↔ (q < num ∧ Nat.Prime q) := by
    intro q
    rw [hpp]
    simp [List.mem_filter, List.mem_range]
  have hsort : pp.Pairwise (· < ·) := by
    rw [hpp]
    exact (List.pairwise_lt_range num).filter _
  have hprod : (113513 : Nat) * 113513 = 12885201169 := by norm_num
  have hbound : ∀ p ∈ evaluated_primes num pp, p * p < U64_MOD := by
    by_cases hc : num ≤ 113513
    · intro p hp
      have hpmem := evaluated_primes_subset num pp p hp
      have hp_lt : p < num := ((hmem p).mp hpmem).1
      have hple : p ≤ 113513 := by omega
      calc p * p ≤ 113513 * 113513 := Nat.mul_le_mul hple hple
        _ < U64_MOD := by decide
    · have hcc : 113513 < num := by omega
      have hsprime : Nat.Prime 113513 := by norm_num
      have hsmem : (113513 : Nat) ∈ pp := (hmem _).mpr ⟨hcc, hsprime⟩
      intro p hp
      have hps : p ≤ 113513 :=
        evaluated_primes_le_stop num 113513 (by decide) (by omega) pp hsort hsmem p hp
      calc p * p ≤ 113513 * 113513 := Nat.mul_le_mul hps hps
        _ < U64_MOD := by decide
  exact ⟨hbound, check_eq_exact_of_no_overflow num pp hbound⟩

theorem check_if_prime_no_overflow_witness :
    check_if_prime 10 [2, 3, 5, 7] = check_if_prime_exact 10 [2, 3, 5, 7] :=
  (check_if_prime_no_overflow 10 (by decide) (by decide) [2, 3, 5, 7] (by decide)).2

theorem cave_vec_init_contract_witness :
    ((⟨8, 256, []⟩ : CaveVec Nat).len = 0 ∧ 0 ≤ (⟨8, 256, []⟩ : CaveVec Nat).capacity ∧
        (0 = 0 → CAVE_VEC_DEFAULT_CAPACITY ≤ (⟨8, 256, []⟩ : CaveVec Nat).capacity)) ∧
      cave_vec_init Nat true 0 4 (fun _ => true) = Except.error CaveError.dataError ∧
      cave_vec_init Nat true 8 4 (fun _ => false)
        = Except.error CaveError.insufficientMemoryError :=
  ⟨(cave_vec_init_contract Nat 8 0 (fun _ => true)).1 ⟨8, 256, []⟩ (by decide),
   (cave_vec_init_contract Nat 0 4 (fun _ => true)).2.1 (by decide),
   (cave_vec_init_contract Nat 8 4 (fun _ => false)).2.2.2 (by decide) (by decide)⟩
